import Mathlib

/-!
Verification of the forwarding (reverse-proxy) pipeline of `proxy.go`
(package `api_client`): the `ProxyAPI` orchestrator, its three request
encoders (`parseRawRequest`, `parseFormRequest`, `parseMultipartFormRequest`)
and the response renderer.

Modelling conventions (shallow embedding):
* Bodies are modelled as `Bytes := String`; the "byte length" of a buffer is
  the length of that string (percent and UTF-8 encoding details live below
  this abstraction).
* `http.Header` (a map from canonical header names to value slices) is an
  association list with distinct keys; `hGet`/`hAdd`/`hSet` mirror
  `Header.Get`, `Header.Add`, `Header.Set`.
* The outbound response sink (`http.ResponseWriter`) is modelled as the trace
  of operations performed on it (`WEvent`), from which the final header map is
  recovered by folding.
* External collaborators that `proxy.go` merely calls — `encoding/json`
  encode/decode, `compress/gzip`, and the client's `DoAPIRequest` — are
  parameters of the model (`Env`), since their code is not part of this
  repository.  Fallible collaborators return `Except GoErr`.
* `http.Request.ParseForm` / `ParseMultipartForm` (standard library) populate
  `req.PostForm` / `req.MultipartForm`; their results are fields of the
  request model, with failure-injection flags for their error paths.
-/

abbrev Bytes := String

/-- Go error values, as an explicit sum so that "propagated unchanged" is a
provable equality. -/
inductive GoErr where
  | decodeError (msg : String)
  | gzipError (msg : String)
  | parseError (msg : String)
  | sizeLimitError
  | openError (msg : String)
  | createError (msg : String)
  | copyError (msg : String)
  | transportError (msg : String)
  deriving Repr, DecidableEq

/-- `http.Header`: association list from header name to its list of values.
Go's implementation is a map with unique (canonical) keys; theorems that need
uniqueness take a `Nodup` hypothesis on the key list. -/
abbrev Header := List (String × List String)

/-- All values stored under key `k` (the slice `h[k]`, `[]` when absent). -/
def hVals : Header → String → List String
  | [], _ => []
  | (k', vv) :: rest, k => if k' = k then vv else hVals rest k

/-- `http.Header.Get`: first value under `k`, `""` when the slice is empty or
the key absent. -/
def hGet (h : Header) (k : String) : String :=
  match hVals h k with
  | [] => ""
  | v :: _ => v

/-- `http.Header.Add`: append `v` to the values of `k`. -/
def hAdd : Header → String → String → Header
  | [], k, v => [(k, [v])]
  | (k', vv) :: rest, k, v =>
    if k' = k then (k', vv ++ [v]) :: rest else (k', vv) :: hAdd rest k v

/-- `http.Header.Set`: replace the values of `k` by the single value `v`. -/
def hSet : Header → String → String → Header
  | [], k, v => [(k, [v])]
  | (k', vv) :: rest, k, v =>
    if k' = k then (k, [v]) :: rest else (k', vv) :: hSet rest k v

/-- Does the header map contain an entry for `k`? -/
def hHas (h : Header) (k : String) : Bool :=
  (h.map Prod.fst).contains k

/-- `url.URL` restricted to the three fields `ProxyAPI` populates. -/
structure URL where
  path : String
  rawQuery : String
  fragment : String
  deriving Repr, DecidableEq

/-- `url.URL.String` for a URL holding only path, raw query and fragment:
the path, then `?query` when the query is non-empty, then `#fragment` when
the fragment is non-empty (percent-escaping abstracted away). -/
def urlString (u : URL) : String :=
  u.path
    ++ (if u.rawQuery = "" then "" else "?" ++ u.rawQuery)
    ++ (if u.fragment = "" then "" else "#" ++ u.fragment)

/-- One uploaded file of a parsed multipart form (`multipart.FileHeader`),
with failure-injection flags for the three fallible collaborator operations
performed on it (`FileHeader.Open`, `Writer.CreateFormFile`, `io.Copy`). -/
structure MultipartFile where
  filename : String
  content : Bytes
  openFails : Bool
  createFails : Bool
  copyFails : Bool
  deriving Repr, DecidableEq

/-- `multipart.Form`: scalar fields and file parts, keyed by field name. -/
structure MultipartForm where
  value : List (String × List String)
  file : List (String × List MultipartFile)
  deriving Repr, DecidableEq

/-- Parsed URL-encoded form data (`url.Values`): name to list of values. -/
abbrev FormValues := List (String × List String)

/-- `http.Request`, restricted to what `proxy.go` reads.  `postForm` and
`queryForm` are the standard library's parse of the body and of the URL query
(`req.PostForm` and the query part of `req.Form`); `parseFormFails` injects a
`ParseForm` failure; `contentLength`/`multipartForm` feed the multipart
parse. -/
structure HttpRequest where
  method : String
  url : URL
  header : Header
  body : Bytes
  postForm : FormValues
  queryForm : FormValues
  parseFormFails : Bool
  contentLength : Int
  multipartForm : Option MultipartForm

/-- Upstream response as returned by the collaborator client. -/
structure Response where
  statusCode : Int
  header : Header
  body : Bytes
  deriving Repr, DecidableEq

/-- One part written to the outbound multipart writer: a scalar field or a
file part (field name, original filename, streamed content). -/
inductive PartData where
  | field (k v : String)
  | filePart (k filename : String) (content : Bytes)
  deriving Repr, DecidableEq

/-- Per-call configuration (`proxy.Options`), parametric in the JSON value
type `J` manipulated by the JSON interceptors. -/
structure Options (J : Type) where
  requestTimeout : Nat := 0
  maxUploadSize : Int := 0
  transferResponseHeaders : List String := []
  urlInterceptor : Option (String → String) := none
  requestInterceptor : Option Unit := none
  requestJSONInterceptor : Option (J → J) := none
  requestFormInterceptor : Option (FormValues → FormValues) := none
  requestMultipartFormInterceptor : Option (List PartData → List PartData) := none
  responseJSONInterceptor : Option (J → J) := none

/-- Operations performed on the outbound response sink, in order.  A streamed
`io.Copy` of the upstream body and the single `Write` of a re-encoded JSON
buffer are distinct events so "never both" is expressible. -/
inductive WEvent where
  | addHeader (k v : String)
  | setHeader (k v : String)
  | writeStatus (code : Int)
  | writeJSON (b : Bytes)
  | copyBody (b : Bytes)
  deriving Repr, DecidableEq

/-- Lifecycle events of the source file handles opened by the multipart
encoder (`v.Open()` / `f.Close()`), identified by position in the flattened
file list. -/
inductive FEvent where
  | opened (idx : Nat)
  | closed (idx : Nat)
  deriving Repr, DecidableEq

/-- Outcome of a request encoder: its traces (was the inbound body closed,
which file handles were opened/closed) and either an error or the produced
(body, content-type) pair. -/
inductive BodySource where
  | noBody
  | inboundStream
  | buffer (b : Bytes)
  | multipart (parts : List PartData)
  deriving Repr, DecidableEq

structure EncodeResult where
  inboundBodyClosed : Bool
  fileEvents : List FEvent
  result : Except GoErr (BodySource × String)

/-- The outbound API request handed to the collaborator client
(`request.NewAPIRequest` + the header-seeding request interceptor of
`ProxyAPI`). -/
structure OutboundRequest where
  method : String
  path : String
  body : BodySource
  contentType : String
  header : Header
  timeout : Nat
  deriving Repr, DecidableEq

/-- Collaborator capabilities `proxy.go` consumes: the network send
(`Client.DoAPIRequest`), gzip decompression (`gzip.NewReader` + read),
`encoding/json` decode/encode over an abstract JSON value type `J`, and the
multipart writer's generated boundary. -/
structure Env (J : Type) where
  send : OutboundRequest → Except GoErr Response
  gunzip : Bytes → Except GoErr Bytes
  jsonDecode : Bytes → Except GoErr J
  jsonEncode : J → Bytes
  boundary : String

/-- Result of one forwarding call: the encoder outcome, every send attempted,
the received upstream response (when any), the sink trace, and the returned
error value. -/
structure ProxyResult where
  encode : EncodeResult
  sends : List OutboundRequest
  upstream : Option Response
  writer : List WEvent
  result : Except GoErr Unit

/-- The request-type constants of `proxy.go` (`ProxyRequestType` is a string
type; the switch falls through to the no-body encoder on anything else). -/
def ProxyRequestTypeNone : String := ""

def ProxyRequestTypeRaw : String := "RAW"

def ProxyRequestTypeForm : String := "FORM"

def ProxyRequestTypeMultipartForm : String := "MULTIPART_FORM"

/-- Lines 33-40: when the caller passes an empty path, rebuild it from the
inbound request's URL (path + query + fragment). -/
def resolvePath (path : String) (u : URL) : String :=
  if path = "" then urlString u else path

/-- Lines 43-45: when the caller passes an empty method, use the inbound
request's method. -/
def resolveMethod (method : String) (req : HttpRequest) : String :=
  if method = "" then req.method else method

/-- Lines 47-53: fold the supplied option functions over a base `Options`
whose `RequestTimeout` is the client-wide timeout. -/
def foldOptions {J : Type} (clientTimeout : Nat)
    (opts : List (Options J → Options J)) : Options J :=
  opts.foldl (fun o f => f o) { requestTimeout := clientTimeout }

/-- Lines 222-248, `parseRawRequest`: with a `RequestJSONInterceptor`, close
the inbound body, decode one JSON value, rewrite, re-encode; otherwise hand
the inbound body stream through unread with its `Content-Type` (defaulting to
`application/octet-stream`). -/
def parseRawRequest {J : Type} (env : Env J) (req : HttpRequest)
    (opt : Options J) : EncodeResult :=
  match opt.requestJSONInterceptor with
  | some f =>
    match env.jsonDecode req.body with
    | .error e =>
      { inboundBodyClosed := true, fileEvents := [], result := .error e }
    | .ok m =>
      { inboundBodyClosed := true, fileEvents := [],
        result := .ok (.buffer (env.jsonEncode (f m)),
                       "application/json; charset=utf-8") }
  | none =>
    let ct := hGet req.header "Content-Type"
    let ct := if ct = "" then "application/octet-stream" else ct
    { inboundBodyClosed := false, fileEvents := [],
      result := .ok (.inboundStream, ct) }

/-- Lines 255-260: rebuild a fresh `url.Values` by `Add`-ing every value of
every key of `req.PostForm`. -/
def addFormValues (m : FormValues) (k : String) : List String → FormValues
  | [] => m
  | v :: vs => addFormValues (hAdd m k v) k vs

def rebuildFormAux (m : FormValues) : FormValues → FormValues
  | [] => m
  | (k, vv) :: rest => rebuildFormAux (addFormValues m k vv) rest

def rebuildForm (postForm : FormValues) : FormValues :=
  rebuildFormAux [] postForm

/-- The keys of a form mapping. -/
def formKeys (m : FormValues) : List String := m.map Prod.fst

/-- Character-list lexicographic comparison (the `sort.Strings` order used by
`url.Values.Encode`, at the abstraction level of code points). -/
def charListLt : List Char → List Char → Bool
  | [], [] => false
  | [], _ :: _ => true
  | _ :: _, [] => false
  | c :: cs, d :: ds =>
    if c.toNat < d.toNat then true
    else if d.toNat < c.toNat then false
    else charListLt cs ds

def strLt (a b : String) : Bool := charListLt a.data b.data

/-- `url.Values.Encode` sorts the keys; insertion sort by key (the relative
order of distinct keys is all that matters, Go maps have unique keys). -/
def insertByKey (kv : String × List String) : FormValues → FormValues
  | [] => [kv]
  | kv' :: rest =>
    if strLt kv'.1 kv.1 then kv' :: insertByKey kv rest else kv :: kv' :: rest

def sortByKey : FormValues → FormValues
  | [] => []
  | kv :: rest => insertByKey kv (sortByKey rest)

/-- The (key, value) pairs of `url.Values.Encode`'s output, in output order:
keys sorted, each key's values in slice order. -/
def encodeFormPairs (m : FormValues) : List (String × String) :=
  (sortByKey m).flatMap fun kv => kv.2.map fun v => (kv.1, v)

/-- `url.Values.Encode`: `k=v` pairs joined by `&` (percent-encoding of keys
and values abstracted away). -/
def encodeForm (m : FormValues) : String :=
  String.intercalate "&" ((encodeFormPairs m).map fun p => p.1 ++ "=" ++ p.2)

/-- Lines 250-272, `parseFormRequest`: `ParseForm`, rebuild the mapping from
`PostForm`, apply the form interceptor when set, serialize; content-type from
the inbound header, defaulting to `application/x-www-form-urlencoded`. -/
def parseFormRequest {J : Type} (req : HttpRequest) (opt : Options J) :
    EncodeResult :=
  if req.parseFormFails then
    { inboundBodyClosed := false, fileEvents := [],
      result := .error (.parseError "form") }
  else
    let form := rebuildForm req.postForm
    let form :=
      match opt.requestFormInterceptor with
      | some f => f form
      | none => form
    let ct := hGet req.header "Content-Type"
    let ct := if ct = "" then "application/x-www-form-urlencoded" else ct
    { inboundBodyClosed := false, fileEvents := [],
      result := .ok (.buffer (encodeForm form), ct) }

/-- Modelled from the spec: `http.Request.ParseMultipartForm` is standard
library code, not part of this repository; per the spec it parses the inbound
request as multipart form data "with an enforced maximum total size
(`MaxUploadSize`; exceeding it fails with SizeLimitError before any field is
read)".  A request whose body size exceeds the limit fails with
`sizeLimitError`; otherwise the parsed form (a field of the request model) is
returned, `none` standing for a malformed multipart body. -/
def requestParseMultipartForm (req : HttpRequest) (maxUploadSize : Int) :
    Except GoErr MultipartForm :=
  if maxUploadSize < req.contentLength then .error .sizeLimitError
  else
    match req.multipartForm with
    | some mf => .ok mf
    | none => .error (.parseError "multipart")

/-- Flatten `req.MultipartForm.File` into the per-file iteration order of the
two nested loops. -/
def flattenFiles (files : List (String × List MultipartFile)) :
    List (String × MultipartFile) :=
  files.flatMap fun kv => kv.2.map fun f => (kv.1, f)

/-- Lines 292-308, the file-copy loop: open the source file, create the
output file part, stream the bytes, close the handle on success.  `v.Open()`
failing produces no handle; `CreateFormFile` or `io.Copy` failing returns
with the just-opened handle left unclosed (there is no `defer f.Close()`).
Returns (handle events, file parts written, error of the first failure). -/
def processFiles : List (String × MultipartFile) → Nat →
    List FEvent × List PartData × Option GoErr
  | [], _ => ([], [], none)
  | (k, v) :: rest, idx =>
    if v.openFails then ([], [], some (.openError v.filename))
    else if v.createFails then
      ([FEvent.opened idx], [], some (.createError v.filename))
    else if v.copyFails then
      ([FEvent.opened idx], [], some (.copyError v.filename))
    else
      let r := processFiles rest (idx + 1)
      (FEvent.opened idx :: FEvent.closed idx :: r.1,
       PartData.filePart k v.filename v.content :: r.2.1, r.2.2)

/-- Lines 284-290, the scalar-field loop: write every value of every field. -/
def fieldParts (value : List (String × List String)) : List PartData :=
  value.flatMap fun kv => kv.2.map fun v => PartData.field kv.1 v

/-- Lines 274-315, `parseMultipartFormRequest`: parse with the size limit,
re-encode fields then files into a fresh multipart writer, hand the writer to
the multipart interceptor when set (its own error is not observed), return
the buffer with the writer's `multipart/form-data` content type. -/
def parseMultipartFormRequest {J : Type} (env : Env J) (req : HttpRequest)
    (opt : Options J) : EncodeResult :=
  match requestParseMultipartForm req opt.maxUploadSize with
  | .error e =>
    { inboundBodyClosed := false, fileEvents := [], result := .error e }
  | .ok mf =>
    let pr := processFiles (flattenFiles mf.file) 0
    match pr.2.2 with
    | some e =>
      { inboundBodyClosed := false, fileEvents := pr.1, result := .error e }
    | none =>
      let parts := fieldParts mf.value ++ pr.2.1
      let parts :=
        match opt.requestMultipartFormInterceptor with
        | some f => f parts
        | none => parts
      { inboundBodyClosed := false, fileEvents := pr.1,
        result := .ok (.multipart parts,
                       "multipart/form-data; boundary=" ++ env.boundary) }

/-- Lines 55-68: encoder dispatch; the default branch is the no-body encoder
`(nil, "", nil)`. -/
def runEncoder {J : Type} (env : Env J) (requestType : String)
    (req : HttpRequest) (opt : Options J) : EncodeResult :=
  if requestType = ProxyRequestTypeRaw then parseRawRequest env req opt
  else if requestType = ProxyRequestTypeForm then parseFormRequest req opt
  else if requestType = ProxyRequestTypeMultipartForm then
    parseMultipartFormRequest env req opt
  else
    { inboundBodyClosed := false, fileEvents := [], result := .ok (.noBody, "") }

/-- Lines 75-86: the outbound request's headers — every inbound header
value `Add`-ed, then `Content-Type` `Set` to the encoder's content type when
it is non-empty. -/
def outboundHeader (inbound : Header) (ct : String) : Header :=
  let h := inbound.foldl (fun acc kv => kv.2.foldl (fun a v => hAdd a kv.1 v) acc) []
  if ct = "" then h else hSet h "Content-Type" ct

/-- Lines 103-106: assemble the outbound API request. -/
def mkOutboundRequest {J : Type} (method path : String) (req : HttpRequest)
    (body : BodySource) (ct : String) (opt : Options J) : OutboundRequest :=
  { method := method, path := path, body := body, contentType := ct,
    header := outboundHeader req.header ct, timeout := opt.requestTimeout }

/-- Lines 115-125: the allow-list header transfer, as sink events.  The inner
loop over `TransferResponseHeaders` with its `break` adds all values of a key
exactly when the key occurs in the list. -/
def transferEvents (resHeader : Header) (allow : List String) : List WEvent :=
  match resHeader with
  | [] => []
  | (k, vv) :: rest =>
    (if allow.contains k then vv.map fun v => WEvent.addHeader k v else [])
      ++ transferEvents rest allow

/-- Lines 113-181, the response renderer: header transfer, status write, then
either the JSON-intercept branch (gzip-aware decode, rewrite, re-encode,
recomputed `Content-Length`, one buffer write) or the passthrough branch
(copy `Content-Type` always, `Content-Length`/`Content-Encoding` when
non-empty, one streamed copy).  Returns the sink trace and the returned
error. -/
def renderResponse {J : Type} (env : Env J) (opt : Options J)
    (res : Response) : List WEvent × Except GoErr Unit :=
  let ev0 := transferEvents res.header opt.transferResponseHeaders
      ++ [WEvent.writeStatus res.statusCode]
  let ce := hGet res.header "Content-Encoding"
  match opt.responseJSONInterceptor with
  | some f =>
    match (if ce = "gzip" then env.gunzip res.body else .ok res.body) with
    | .error e => (ev0, .error e)
    | .ok raw =>
      match env.jsonDecode raw with
      | .error e => (ev0, .error e)
      | .ok m =>
        let buf := env.jsonEncode (f m)
        (ev0 ++ [WEvent.setHeader "Content-Type" "application/json; charset=utf-8",
                 WEvent.setHeader "Content-Length" (toString buf.length),
                 WEvent.writeJSON buf],
         .ok ())
  | none =>
    let ev1 := ev0 ++ [WEvent.setHeader "Content-Type" (hGet res.header "Content-Type")]
    let cl := hGet res.header "Content-Length"
    let ev2 := ev1 ++ (if cl = "" then [] else [WEvent.setHeader "Content-Length" cl])
    let ev3 := ev2 ++ (if ce = "" then [] else [WEvent.setHeader "Content-Encoding" ce])
    (ev3 ++ [WEvent.copyBody res.body], .ok ())

/-- Lines 26-181, `Client.ProxyAPI`: resolve path and method, fold options,
run the selected encoder (its error aborts the call before any send), send
via the collaborator client (its error is returned unchanged), then render
the response into the sink. -/
def ProxyAPI {J : Type} (env : Env J) (clientTimeout : Nat)
    (method path : String) (httpReq : HttpRequest) (requestType : String)
    (opts : List (Options J → Options J)) : ProxyResult :=
  let rpath := resolvePath path httpReq.url
  let rmethod := resolveMethod method httpReq
  let opt := foldOptions clientTimeout opts
  let er := runEncoder env requestType httpReq opt
  match er.result with
  | .error e =>
    { encode := er, sends := [], upstream := none, writer := [],
      result := .error e }
  | .ok bc =>
    let outReq := mkOutboundRequest rmethod rpath httpReq bc.1 bc.2 opt
    match env.send outReq with
    | .error e =>
      { encode := er, sends := [outReq], upstream := none, writer := [],
        result := .error e }
    | .ok res =>
      let rr := renderResponse env opt res
      { encode := er, sends := [outReq], upstream := some res,
        writer := rr.1, result := rr.2 }

/-- Final header map of the sink: fold the trace's `Add`/`Set` operations. -/
def applyEvent (h : Header) : WEvent → Header
  | .addHeader k v => hAdd h k v
  | .setHeader k v => hSet h k v
  | _ => h

def finalHeader (tr : List WEvent) : Header :=
  tr.foldl applyEvent []

/-- Body-write events of a trace. -/
def isBodyWrite : WEvent → Bool
  | .writeJSON _ => true
  | .copyBody _ => true
  | _ => false

def bodyWrites (tr : List WEvent) : List WEvent :=
  tr.filter isBodyWrite

/-- Status-write events of a trace. -/
def isStatusWrite : WEvent → Bool
  | .writeStatus _ => true
  | _ => false

def statusWrites (tr : List WEvent) : List WEvent :=
  tr.filter isStatusWrite

def isAddEvent : WEvent → Bool
  | .addHeader _ _ => true
  | _ => false

def applyEvents (h : Header) (tr : List WEvent) : Header :=
  tr.foldl applyEvent h

/-! Concrete fixtures used by witnesses and counterexamples.  The JSON value
type is instantiated with `Nat`; the collaborator functions are simple
computable stand-ins. -/

/-- An upstream response whose body is gzip-compressed JSON. -/
def wRes : Response where
  statusCode := 200
  header := [("Content-Encoding", ["gzip"]), ("X-Foo", ["a", "b"]),
             ("Content-Type", ["application/json"]), ("Content-Length", ["2"])]
  body := "zz"

/-- A plain upstream response (no Content-Encoding, no Content-Length). -/
def wResPlain : Response where
  statusCode := 404
  header := [("X-Foo", ["a"]), ("Set-Cookie", ["c1", "c2"])]
  body := "BODY"

/-- Successful collaborator environment. -/
def wEnv : Env Nat where
  send := fun _ => .ok wRes
  gunzip := fun s => .ok ("UN" ++ s)
  jsonDecode := fun s => .ok s.length
  jsonEncode := fun n => toString n ++ "X"
  boundary := "bnd"

/-- Environment whose send returns a plain response. -/
def wEnvPlain : Env Nat where
  send := fun _ => .ok wResPlain
  gunzip := fun s => .ok ("UN" ++ s)
  jsonDecode := fun s => .ok s.length
  jsonEncode := fun n => toString n ++ "X"
  boundary := "bnd"

/-- Environment whose network send fails. -/
def wEnvSendFail : Env Nat where
  send := fun _ => .error (.transportError "down")
  gunzip := fun s => .ok ("UN" ++ s)
  jsonDecode := fun s => .ok s.length
  jsonEncode := fun n => toString n ++ "X"
  boundary := "bnd"

/-- Environment whose JSON decoding fails (malformed JSON). -/
def wEnvDecodeFail : Env Nat where
  send := fun _ => .ok wRes
  gunzip := fun s => .ok ("UN" ++ s)
  jsonDecode := fun _ => .error (.decodeError "bad json")
  jsonEncode := fun n => toString n ++ "X"
  boundary := "bnd"

/-- Environment whose gzip decompression fails (invalid gzip stream). -/
def wEnvGzipFail : Env Nat where
  send := fun _ => .ok wRes
  gunzip := fun _ => .error (.gzipError "invalid gzip")
  jsonDecode := fun s => .ok s.length
  jsonEncode := fun n => toString n ++ "X"
  boundary := "bnd"

/-- A concrete inbound request. -/
def wReq : HttpRequest where
  method := "POST"
  url := { path := "/v1/x", rawQuery := "a=1", fragment := "" }
  header := [("Content-Type", ["text/plain"])]
  body := "body"
  postForm := [("a", ["1", "2"]), ("b", ["x"])]
  queryForm := [("q", ["7"])]
  parseFormFails := false
  contentLength := 4
  multipartForm := none

/-- The outbound request `ProxyAPI` builds for `wReq` with empty method/path
and the raw passthrough encoder. -/
def wOut : OutboundRequest where
  method := "POST"
  path := "/v1/x?a=1"
  body := .inboundStream
  contentType := "text/plain"
  header := [("Content-Type", ["text/plain"])]
  timeout := 30

/-- Option function enabling a response JSON interceptor and an allow list
containing `Content-Encoding` (the C1 counterexample configuration). -/
def oCEAllowed : Options Nat → Options Nat := fun o =>
  { (o : Options Nat) with transferResponseHeaders := ["Content-Encoding"], responseJSONInterceptor := some fun j => j }

/-- Option function enabling a response JSON interceptor with a benign allow
list. -/
def oJSON : Options Nat → Options Nat := fun o =>
  { (o : Options Nat) with transferResponseHeaders := ["X-Foo"], responseJSONInterceptor := some fun j => j + 1 }

/-- Option function enabling a request JSON interceptor. -/
def oReqJSON : Options Nat → Options Nat := fun o =>
  { o with requestJSONInterceptor := some fun j => j + 1 }

/-- Option function configuring only an allow list (no JSON interceptor). -/
def oTransfer : Options Nat → Options Nat := fun o =>
  { (o : Options Nat) with transferResponseHeaders := ["X-Foo", "Set-Cookie"] }

/-- Option function setting a 10-byte multipart upload limit. -/
def oMax10 : Options Nat → Options Nat := fun o =>
  { (o : Options Nat) with maxUploadSize := 10 }

/-- Option function configuring a request form interceptor that adds a
field. -/
def oForm : Options Nat → Options Nat := fun o =>
  { (o : Options Nat) with requestFormInterceptor := some fun m => hAdd m "c" "9" }

/-- A multipart request larger than the 10-byte limit. -/
def wReqBig : HttpRequest :=
  { wReq with contentLength := 100, multipartForm := some ⟨[("a", ["1"])], []⟩ }

def wFileOk : MultipartFile := ⟨"ok.txt", "DATA", false, false, false⟩

def wFileCopyFail : MultipartFile := ⟨"bad.txt", "YY", false, false, true⟩

def wFileCreateFail : MultipartFile := ⟨"a.txt", "x", false, true, false⟩

/-- A multipart request whose single file fails at `CreateFormFile`. -/
def wReqMpCreate : HttpRequest :=
  { wReq with multipartForm := some ⟨[], [("f", [wFileCreateFail])]⟩ }

/-- A multipart request whose second file fails at `io.Copy`. -/
def wReqMpCopy : HttpRequest :=
  { wReq with multipartForm := some ⟨[], [("f", [wFileOk]), ("g", [wFileCopyFail])]⟩ }

/-- Does a sink event write to header key `k`? -/
def touches (k : String) : WEvent → Bool
  | .addHeader k' _ => k' = k
  | .setHeader k' _ => k' = k
  | _ => false

/-- The three header names the renderer itself writes. -/
def specialKey (k : String) : Prop :=
  k = "Content-Type" ∨ k = "Content-Length" ∨ k = "Content-Encoding"

theorem finalHeader_eq_applyEvents (tr : List WEvent) :
    finalHeader tr = applyEvents [] tr := rfl

theorem applyEvents_append (h : Header) (t1 t2 : List WEvent) :
    applyEvents h (t1 ++ t2) = applyEvents (applyEvents h t1) t2 :=
  List.foldl_append _ _ _ _

theorem hVals_hAdd_self (h : Header) (k v : String) :
    hVals (hAdd h k v) k = hVals h k ++ [v] := by
  induction h with
  | nil => simp [hAdd, hVals]
  | cons kv rest ih =>
    obtain ⟨k', vv⟩ := kv
    by_cases hk : k' = k
    · subst hk; simp [hAdd, hVals]
    · simp [hAdd, hVals, hk, ih]

theorem hVals_hAdd_ne (h : Header) (k v k' : String) (hne : k' ≠ k) :
    hVals (hAdd h k v) k' = hVals h k' := by
  have hkk : k ≠ k' := fun he => hne he.symm
  induction h with
  | nil => simp [hAdd, hVals, hkk]
  | cons kv rest ih =>
    obtain ⟨k0, vv⟩ := kv
    by_cases hk : k0 = k
    · subst hk
      simp [hAdd, hVals, hkk]
    · by_cases hk' : k0 = k'
      · simp [hAdd, hVals, hk, hk', hne]
      · simp [hAdd, hVals, hk, hk', ih]

theorem hVals_hSet_self (h : Header) (k v : String) :
    hVals (hSet h k v) k = [v] := by
  induction h with
  | nil => simp [hSet, hVals]
  | cons kv rest ih =>
    obtain ⟨k', vv⟩ := kv
    by_cases hk : k' = k
    · subst hk; simp [hSet, hVals]
    · simp [hSet, hVals, hk, ih]

theorem hVals_hSet_ne (h : Header) (k v k' : String) (hne : k' ≠ k) :
    hVals (hSet h k v) k' = hVals h k' := by
  have hkk : k ≠ k' := fun he => hne he.symm
  induction h with
  | nil => simp [hSet, hVals, hkk]
  | cons kv rest ih =>
    obtain ⟨k0, vv⟩ := kv
    by_cases hk : k0 = k
    · subst hk
      simp [hSet, hVals, hkk]
    · by_cases hk' : k0 = k'
      · simp [hSet, hVals, hk, hk', hne]
      · simp [hSet, hVals, hk, hk', ih]

theorem vals_applyEvents_untouched (tr : List WEvent) (h : Header) (k : String)
    (hk : ∀ e ∈ tr, touches k e = false) :
    hVals (applyEvents h tr) k = hVals h k := by
  induction tr generalizing h with
  | nil => rfl
  | cons e rest ih =>
    have he : touches k e = false := hk e (List.mem_cons_self _ _)
    have hrest : ∀ e ∈ rest, touches k e = false :=
      fun e' hm => hk e' (List.mem_cons_of_mem _ hm)
    cases e with
    | addHeader k' v =>
      have hne : k' ≠ k := by simpa [touches] using he
      show hVals (applyEvents (hAdd h k' v) rest) k = hVals h k
      rw [ih _ hrest, hVals_hAdd_ne _ _ _ _ (fun hkk => hne hkk.symm)]
    | setHeader k' v =>
      have hne : k' ≠ k := by simpa [touches] using he
      show hVals (applyEvents (hSet h k' v) rest) k = hVals h k
      rw [ih _ hrest, hVals_hSet_ne _ _ _ _ (fun hkk => hne hkk.symm)]
    | writeStatus c => exact ih _ hrest
    | writeJSON b => exact ih _ hrest
    | copyBody b => exact ih _ hrest

theorem vals_applyEvents_addAll (h : Header) (k : String) (vv : List String) :
    hVals (applyEvents h (vv.map fun v => WEvent.addHeader k v)) k
      = hVals h k ++ vv := by
  induction vv generalizing h with
  | nil => simp [applyEvents]
  | cons v rest ih =>
    show hVals (applyEvents (hAdd h k v) (rest.map fun v => WEvent.addHeader k v)) k
      = hVals h k ++ (v :: rest)
    rw [ih, hVals_hAdd_self]
    simp

theorem vals_applyEvents_addAll_ne (h : Header) (k k' : String) (vv : List String)
    (hne : k' ≠ k) :
    hVals (applyEvents h (vv.map fun v => WEvent.addHeader k v)) k' = hVals h k' := by
  apply vals_applyEvents_untouched
  intro e hm
  rcases List.mem_map.1 hm with ⟨v, _, rfl⟩
  simpa [touches] using Ne.symm hne

/-- Every event of the transfer loop is an `Add` of an allow-listed upstream
key, with a value drawn from that key's slice. -/
theorem mem_transferEvents {entries : Header} {allow : List String} {e : WEvent}
    (hm : e ∈ transferEvents entries allow) :
    ∃ k vv v, (k, vv) ∈ entries ∧ allow.contains k = true ∧ v ∈ vv
      ∧ e = WEvent.addHeader k v := by
  induction entries with
  | nil => simp [transferEvents] at hm
  | cons p rest ih =>
    obtain ⟨k0, vv0⟩ := p
    simp only [transferEvents, List.mem_append] at hm
    rcases hm with hm | hm
    · by_cases hck : allow.contains k0
      · rw [if_pos hck] at hm
        rcases List.mem_map.1 hm with ⟨v, hv, rfl⟩
        exact ⟨k0, vv0, v, List.mem_cons_self _ _, hck, hv, rfl⟩
      · rw [if_neg hck] at hm; cases hm
    · rcases ih hm with ⟨k, vv, v, hmem, hc, hv, he⟩
      exact ⟨k, vv, v, List.mem_cons_of_mem _ hmem, hc, hv, he⟩

theorem vals_transfer_key_absent (entries : Header) (allow : List String)
    (k : String) (h : Header)
    (hk : ∀ p ∈ entries, p.1 ≠ k) :
    hVals (applyEvents h (transferEvents entries allow)) k = hVals h k := by
  apply vals_applyEvents_untouched
  intro e hm
  rcases mem_transferEvents hm with ⟨k0, vv, v, hmem, _, _, rfl⟩
  simpa [touches] using hk (k0, vv) hmem

theorem vals_transfer_not_allowed (entries : Header) (allow : List String)
    (k : String) (h : Header)
    (hc : allow.contains k = false) :
    hVals (applyEvents h (transferEvents entries allow)) k = hVals h k := by
  apply vals_applyEvents_untouched
  intro e hm
  rcases mem_transferEvents hm with ⟨k0, vv, v, _, hck, _, rfl⟩
  have : k0 ≠ k := by
    intro he; rw [he, hc] at hck; cases hck
  simpa [touches] using this

theorem vals_transfer (entries : Header) (allow : List String) (k : String)
    (hnd : (entries.map Prod.fst).Nodup) (h : Header) (hvk : hVals h k = []) :
    hVals (applyEvents h (transferEvents entries allow)) k
      = if allow.contains k then hVals entries k else [] := by
  by_cases hc : allow.contains k
  · rw [if_pos hc]
    induction entries generalizing h with
    | nil => simpa [transferEvents, applyEvents, hVals]
    | cons p rest ih =>
      obtain ⟨k0, vv⟩ := p
      simp only [List.map, List.nodup_cons] at hnd
      simp only [transferEvents]
      rw [applyEvents_append]
      by_cases hk0 : k0 = k
      · subst hk0
        rw [if_pos hc]
        have habs : ∀ p ∈ rest, p.1 ≠ k0 := by
          intro p hp he
          exact hnd.1 (he ▸ List.mem_map_of_mem Prod.fst hp)
        rw [vals_transfer_key_absent rest allow k0 _ habs,
            vals_applyEvents_addAll, hvk]
        simp [hVals]
      · have hne : k ≠ k0 := fun he => hk0 he.symm
        have hstep : hVals (applyEvents h
            (if allow.contains k0 then vv.map fun v => WEvent.addHeader k0 v else [])) k
            = hVals h k := by
          by_cases hck : allow.contains k0
          · rw [if_pos hck]
            exact vals_applyEvents_addAll_ne h k0 k vv hne
          · rw [if_neg hck]; rfl
        rw [ih hnd.2 (applyEvents h _) (hstep.trans hvk)]
        simp [hVals, hk0]
  · rw [if_neg hc, vals_transfer_not_allowed entries allow k h (by simpa using hc)]
    exact hvk

/-- Inversion: a call that received an upstream response renders it — the
sink trace and the returned error are those of `renderResponse` under the
folded options. -/
theorem proxyAPI_render_of_upstream {J : Type} (env : Env J) (t : Nat)
    (m p : String) (req : HttpRequest) (rt : String)
    (opts : List (Options J → Options J)) (res : Response)
    (hup : (ProxyAPI env t m p req rt opts).upstream = some res) :
    (ProxyAPI env t m p req rt opts).writer
        = (renderResponse env (foldOptions t opts) res).1
      ∧ (ProxyAPI env t m p req rt opts).result
        = (renderResponse env (foldOptions t opts) res).2 := by
  unfold ProxyAPI at hup ⊢
  cases her : (runEncoder env rt req (foldOptions t opts)).result with
  | error e => simp [her] at hup
  | ok bc =>
    cases hs : env.send (mkOutboundRequest (resolveMethod m req)
        (resolvePath p req.url) req bc.1 bc.2 (foldOptions t opts)) with
    | error e => simp [her, hs] at hup
    | ok res' =>
      simp only [her, hs] at hup ⊢
      cases hup
      exact ⟨rfl, rfl⟩

/-- Every outbound request a forwarding call sends uses the resolved path and
method. -/
theorem proxyAPI_sends_resolved {J : Type} (env : Env J) (t : Nat)
    (m p : String) (req : HttpRequest) (rt : String)
    (opts : List (Options J → Options J)) (r : OutboundRequest)
    (hr : r ∈ (ProxyAPI env t m p req rt opts).sends) :
    r.path = resolvePath p req.url ∧ r.method = resolveMethod m req := by
  unfold ProxyAPI at hr
  cases her : (runEncoder env rt req (foldOptions t opts)).result with
  | error e => simp [her] at hr
  | ok bc =>
    cases hs : env.send (mkOutboundRequest (resolveMethod m req)
        (resolvePath p req.url) req bc.1 bc.2 (foldOptions t opts)) with
    | error e =>
      simp only [her, hs, List.mem_singleton] at hr
      subst hr; exact ⟨rfl, rfl⟩
    | ok res =>
      simp only [her, hs, List.mem_singleton] at hr
      subst hr; exact ⟨rfl, rfl⟩

/-- C5: a forwarding call invoked with an empty path argument reconstructs
the outbound path from the inbound URL as path + "?" + query + "#" + fragment
with only the present parts (no trailing separator for an absent query or
fragment); a non-empty path argument is used verbatim; an empty method
argument resolves to the inbound request's method.  Every outbound request
the call sends carries the resolved path and method. -/
theorem C5_path_method_resolution {J : Type} (env : Env J) (t : Nat)
    (m p : String) (req : HttpRequest) (rt : String)
    (opts : List (Options J → Options J)) :
    (∀ r ∈ (ProxyAPI env t m p req rt opts).sends,
        r.path = resolvePath p req.url ∧ r.method = resolveMethod m req)
    ∧ (p = "" → resolvePath p req.url
        = req.url.path
            ++ (if req.url.rawQuery = "" then "" else "?" ++ req.url.rawQuery)
            ++ (if req.url.fragment = "" then "" else "#" ++ req.url.fragment))
    ∧ (p ≠ "" → resolvePath p req.url = p)
    ∧ (m = "" → resolveMethod m req = req.method) := by
  refine ⟨fun r hr => proxyAPI_sends_resolved env t m p req rt opts r hr, ?_, ?_, ?_⟩
  · intro hp; rw [resolvePath, if_pos hp]; rfl
  · intro hp; rw [resolvePath, if_neg hp]
  · intro hm; rw [resolveMethod, if_pos hm]

theorem C5_path_method_resolution_witness :
    (wOut ∈ (ProxyAPI wEnv 30 "" "" wReq ProxyRequestTypeRaw
        ([] : List (Options Nat → Options Nat))).sends
      ∧ wOut.path = "/v1/x?a=1" ∧ wOut.method = "POST")
    ∧ resolvePath "" wReq.url = "/v1/x?a=1"
    ∧ resolvePath "/z" wReq.url = "/z"
    ∧ resolveMethod "" wReq = "POST" := by
  have h := C5_path_method_resolution wEnv 30 "" "" wReq ProxyRequestTypeRaw []
  have h' := C5_path_method_resolution wEnv 30 "" "/z" wReq ProxyRequestTypeRaw []
  have hmem : wOut ∈ (ProxyAPI wEnv 30 "" "" wReq ProxyRequestTypeRaw
      ([] : List (Options Nat → Options Nat))).sends := by decide
  refine ⟨⟨hmem, ?_, ?_⟩, ?_, ?_, ?_⟩
  · exact ((h.1 wOut hmem).1).trans (h.2.1 rfl)
  · exact ((h.1 wOut hmem).2).trans (h.2.2.2 rfl)
  · exact h.2.1 rfl
  · exact h'.2.2.1 (by decide)
  · exact h.2.2.2 rfl

/-- C6: the Raw encoder.  Without a request JSON interceptor it passes the
inbound body stream through unread (not closing it) with the inbound
`Content-Type`, defaulting to `application/octet-stream` when that header
yields nothing; with an interceptor it closes the inbound body, decodes one
JSON value (propagating a decode error, producing no body), applies the
interceptor and returns the re-encoded buffer typed
`application/json; charset=utf-8`. -/
theorem C6_raw_encoder {J : Type} (env : Env J) (req : HttpRequest)
    (opt : Options J) :
    (opt.requestJSONInterceptor = none →
      (parseRawRequest env req opt).inboundBodyClosed = false
      ∧ (parseRawRequest env req opt).result
          = .ok (.inboundStream,
              if hGet req.header "Content-Type" = "" then "application/octet-stream"
              else hGet req.header "Content-Type"))
    ∧ (∀ f, opt.requestJSONInterceptor = some f →
        (parseRawRequest env req opt).inboundBodyClosed = true
        ∧ (∀ e, env.jsonDecode req.body = .error e →
            (parseRawRequest env req opt).result = .error e)
        ∧ (∀ m, env.jsonDecode req.body = .ok m →
            (parseRawRequest env req opt).result
              = .ok (.buffer (env.jsonEncode (f m)),
                     "application/json; charset=utf-8"))) := by
  constructor
  · intro hn
    constructor
    · simp [parseRawRequest, hn]
    · simp only [parseRawRequest, hn]
  · intro f hf
    refine ⟨?_, ?_, ?_⟩
    · simp only [parseRawRequest, hf]
      cases env.jsonDecode req.body <;> rfl
    · intro e he; simp [parseRawRequest, hf, he]
    · intro m hm; simp [parseRawRequest, hf, hm]

theorem C6_raw_encoder_witness :
    ((parseRawRequest wEnv wReq (foldOptions 30 ([] : List (Options Nat → Options Nat)))).inboundBodyClosed = false
      ∧ (parseRawRequest wEnv wReq (foldOptions 30 ([] : List (Options Nat → Options Nat)))).result
          = .ok (.inboundStream, "text/plain"))
    ∧ ((parseRawRequest wEnv wReq (foldOptions 30 [oReqJSON])).inboundBodyClosed = true
      ∧ (parseRawRequest wEnv wReq (foldOptions 30 [oReqJSON])).result
          = .ok (.buffer "5X", "application/json; charset=utf-8"))
    ∧ (parseRawRequest wEnvDecodeFail wReq (foldOptions 30 [oReqJSON])).result
        = .error (.decodeError "bad json") := by
  have h1 := (C6_raw_encoder wEnv wReq (foldOptions 30 ([] : List (Options Nat → Options Nat)))).1 rfl
  have h2 := (C6_raw_encoder wEnv wReq (foldOptions 30 [oReqJSON])).2 (fun j => j + 1) rfl
  have h3 := (C6_raw_encoder wEnvDecodeFail wReq (foldOptions 30 [oReqJSON])).2 (fun j => j + 1) rfl
  refine ⟨⟨h1.1, h1.2⟩, ⟨h2.1, ?_⟩, ?_⟩
  · exact h2.2.2 4 rfl
  · exact h3.2.1 (.decodeError "bad json") rfl

/-- C9: an encoder error aborts the whole call — the error is returned as is,
no outbound request is sent and nothing is written to the sink; a send error
from the collaborator client is returned unchanged, with exactly the one
failed send attempt and nothing written to the sink. -/
theorem C9_error_propagation {J : Type} (env : Env J) (t : Nat) (m p : String)
    (req : HttpRequest) (rt : String) (opts : List (Options J → Options J)) :
    (∀ e, (runEncoder env rt req (foldOptions t opts)).result = .error e →
      (ProxyAPI env t m p req rt opts).result = .error e
      ∧ (ProxyAPI env t m p req rt opts).sends = []
      ∧ (ProxyAPI env t m p req rt opts).writer = [])
    ∧ (∀ bc e, (runEncoder env rt req (foldOptions t opts)).result = .ok bc →
        env.send (mkOutboundRequest (resolveMethod m req) (resolvePath p req.url)
          req bc.1 bc.2 (foldOptions t opts)) = .error e →
        (ProxyAPI env t m p req rt opts).result = .error e
        ∧ (ProxyAPI env t m p req rt opts).sends
            = [mkOutboundRequest (resolveMethod m req) (resolvePath p req.url)
                req bc.1 bc.2 (foldOptions t opts)]
        ∧ (ProxyAPI env t m p req rt opts).writer = []) := by
  constructor
  · intro e he
    unfold ProxyAPI
    simp [he]
  · intro bc e hok hsend
    unfold ProxyAPI
    simp [hok, hsend]

theorem C9_error_propagation_witness :
    ((ProxyAPI wEnvDecodeFail 30 "" "" wReq ProxyRequestTypeRaw [oReqJSON]).result
        = .error (.decodeError "bad json")
      ∧ (ProxyAPI wEnvDecodeFail 30 "" "" wReq ProxyRequestTypeRaw [oReqJSON]).sends = []
      ∧ (ProxyAPI wEnvDecodeFail 30 "" "" wReq ProxyRequestTypeRaw [oReqJSON]).writer = [])
    ∧ ((ProxyAPI wEnvSendFail 30 "" "" wReq ProxyRequestTypeRaw
          ([] : List (Options Nat → Options Nat))).result
        = .error (.transportError "down")
      ∧ (ProxyAPI wEnvSendFail 30 "" "" wReq ProxyRequestTypeRaw
          ([] : List (Options Nat → Options Nat))).sends = [wOut]
      ∧ (ProxyAPI wEnvSendFail 30 "" "" wReq ProxyRequestTypeRaw
          ([] : List (Options Nat → Options Nat))).writer = []) := by
  have h1 := (C9_error_propagation wEnvDecodeFail 30 "" "" wReq ProxyRequestTypeRaw
      [oReqJSON]).1 (.decodeError "bad json") rfl
  have h2 := (C9_error_propagation wEnvSendFail 30 "" "" wReq ProxyRequestTypeRaw
      ([] : List (Options Nat → Options Nat))).2 (.inboundStream, "text/plain")
      (.transportError "down") rfl rfl
  refine ⟨h1, h2.1, ?_, h2.2.2⟩
  exact h2.2.1.trans (by decide)

/-- Shape of the renderer's sink trace: the allow-list transfer events, then
the single status write, then a tail that adds no header, writes no status,
touches only the three special keys, and contains at most one body write —
exactly one when the renderer returns without error. -/
theorem render_writer_split {J : Type} (env : Env J) (opt : Options J)
    (res : Response) :
    ∃ tail,
      (renderResponse env opt res).1
        = transferEvents res.header opt.transferResponseHeaders
            ++ WEvent.writeStatus res.statusCode :: tail
      ∧ (∀ e ∈ tail, isAddEvent e = false)
      ∧ (∀ e ∈ tail, isStatusWrite e = false)
      ∧ (∀ e ∈ tail, ∀ k, touches k e = true → specialKey k)
      ∧ (bodyWrites tail).length ≤ 1
      ∧ ((renderResponse env opt res).2 = .ok () → (bodyWrites tail).length = 1) := by
  cases hJ : opt.responseJSONInterceptor with
  | some f =>
    cases hgz : (if hGet res.header "Content-Encoding" = "gzip"
        then env.gunzip res.body else .ok res.body) with
    | error e =>
      refine ⟨[], ?_, ?_, ?_, ?_, ?_, ?_⟩ <;>
        simp [renderResponse, hJ, hgz, bodyWrites]
    | ok raw =>
      cases hdec : env.jsonDecode raw with
      | error e =>
        refine ⟨[], ?_, ?_, ?_, ?_, ?_, ?_⟩ <;>
          simp [renderResponse, hJ, hgz, hdec, bodyWrites]
      | ok m =>
        refine ⟨[WEvent.setHeader "Content-Type" "application/json; charset=utf-8",
                 WEvent.setHeader "Content-Length" (toString (env.jsonEncode (f m)).length),
                 WEvent.writeJSON (env.jsonEncode (f m))], ?_, ?_, ?_, ?_, ?_, ?_⟩
        · simp [renderResponse, hJ, hgz, hdec]
        · intro e he
          rcases List.mem_cons.1 he with rfl | he
          · rfl
          rcases List.mem_cons.1 he with rfl | he
          · rfl
          rcases List.mem_singleton.1 he with rfl
          rfl
        · intro e he
          rcases List.mem_cons.1 he with rfl | he
          · rfl
          rcases List.mem_cons.1 he with rfl | he
          · rfl
          rcases List.mem_singleton.1 he with rfl
          rfl
        · intro e he k ht
          rcases List.mem_cons.1 he with rfl | he
          · simp [touches] at ht
            exact Or.inl ht.symm
          rcases List.mem_cons.1 he with rfl | he
          · simp [touches] at ht
            exact Or.inr (Or.inl ht.symm)
          rcases List.mem_singleton.1 he with rfl
          simp [touches] at ht
        · simp [bodyWrites, isBodyWrite]
        · intro _; simp [bodyWrites, isBodyWrite]
  | none =>
    by_cases hcl : hGet res.header "Content-Length" = "" <;>
      by_cases hce : hGet res.header "Content-Encoding" = ""
    · refine ⟨[WEvent.setHeader "Content-Type" (hGet res.header "Content-Type"),
               WEvent.copyBody res.body], ?_, ?_, ?_, ?_, ?_, ?_⟩
      · simp [renderResponse, hJ, hcl, hce, List.append_assoc]
      · intro e he; fin_cases he <;> rfl
      · intro e he; fin_cases he <;> rfl
      · intro e he k ht
        fin_cases he <;> simp [touches] at ht
        exact Or.inl ht.symm
      · simp [bodyWrites, isBodyWrite]
      · intro _; simp [bodyWrites, isBodyWrite]
    · refine ⟨[WEvent.setHeader "Content-Type" (hGet res.header "Content-Type"),
               WEvent.setHeader "Content-Encoding" (hGet res.header "Content-Encoding"),
               WEvent.copyBody res.body], ?_, ?_, ?_, ?_, ?_, ?_⟩
      · simp [renderResponse, hJ, hcl, hce, List.append_assoc]
      · intro e he; fin_cases he <;> rfl
      · intro e he; fin_cases he <;> rfl
      · intro e he k ht
        fin_cases he <;> simp [touches] at ht
        · exact Or.inl ht.symm
        · exact Or.inr (Or.inr ht.symm)
      · simp [bodyWrites, isBodyWrite]
      · intro _; simp [bodyWrites, isBodyWrite]
    · refine ⟨[WEvent.setHeader "Content-Type" (hGet res.header "Content-Type"),
               WEvent.setHeader "Content-Length" (hGet res.header "Content-Length"),
               WEvent.copyBody res.body], ?_, ?_, ?_, ?_, ?_, ?_⟩
      · simp [renderResponse, hJ, hcl, hce, List.append_assoc]
      · intro e he; fin_cases he <;> rfl
      · intro e he; fin_cases he <;> rfl
      · intro e he k ht
        fin_cases he <;> simp [touches] at ht
        · exact Or.inl ht.symm
        · exact Or.inr (Or.inl ht.symm)
      · simp [bodyWrites, isBodyWrite]
      · intro _; simp [bodyWrites, isBodyWrite]
    · refine ⟨[WEvent.setHeader "Content-Type" (hGet res.header "Content-Type"),
               WEvent.setHeader "Content-Length" (hGet res.header "Content-Length"),
               WEvent.setHeader "Content-Encoding" (hGet res.header "Content-Encoding"),
               WEvent.copyBody res.body], ?_, ?_, ?_, ?_, ?_, ?_⟩
      · simp [renderResponse, hJ, hcl, hce, List.append_assoc]
      · intro e he; fin_cases he <;> rfl
      · intro e he; fin_cases he <;> rfl
      · intro e he k ht
        fin_cases he <;> simp [touches] at ht
        · exact Or.inl ht.symm
        · exact Or.inr (Or.inl ht.symm)
        · exact Or.inr (Or.inr ht.symm)
      · simp [bodyWrites, isBodyWrite]
      · intro _; simp [bodyWrites, isBodyWrite]

/-- For keys outside the renderer's three special headers, the final header
map of the rendered response is exactly the allow-list transfer: the
upstream values when the key is allow-listed, nothing otherwise. -/
theorem vals_render_nonspecial {J : Type} (env : Env J) (opt : Options J)
    (res : Response) (hnd : (res.header.map Prod.fst).Nodup) (k : String)
    (hk : ¬ specialKey k) :
    hVals (finalHeader (renderResponse env opt res).1) k
      = if opt.transferResponseHeaders.contains k then hVals res.header k
        else [] := by
  rcases render_writer_split env opt res with ⟨tail, hsh, _, _, htouch, _, _⟩
  rw [hsh, finalHeader_eq_applyEvents, ← List.singleton_append,
      ← List.append_assoc, applyEvents_append, applyEvents_append]
  have huntouched : ∀ e ∈ tail, touches k e = false := by
    intro e he
    cases ht : touches k e with
    | false => rfl
    | true => exact absurd (htouch e he k ht) hk
  rw [vals_applyEvents_untouched tail _ k huntouched]
  exact vals_transfer res.header opt.transferResponseHeaders k hnd [] rfl

/-- C2: in a forwarding call that received an upstream response, a header
name outside the specially handled Content-Type / Content-Length /
Content-Encoding appears in the outbound response exactly when it is listed
in `TransferResponseHeaders` and present upstream, and then carries all the
upstream values in order (additive copy); a non-special header outside the
allow list never appears. -/
theorem C2_allowlist_header_transfer {J : Type} (env : Env J) (t : Nat)
    (m p : String) (req : HttpRequest) (rt : String)
    (opts : List (Options J → Options J)) (res : Response)
    (hup : (ProxyAPI env t m p req rt opts).upstream = some res)
    (hnd : (res.header.map Prod.fst).Nodup)
    (k : String) (hk : ¬ specialKey k) :
    hVals (finalHeader (ProxyAPI env t m p req rt opts).writer) k
      = if (foldOptions t opts).transferResponseHeaders.contains k
        then hVals res.header k else [] := by
  rw [(proxyAPI_render_of_upstream env t m p req rt opts res hup).1]
  exact vals_render_nonspecial env (foldOptions t opts) res hnd k hk

theorem C2_allowlist_header_transfer_witness :
    hVals (finalHeader (ProxyAPI wEnvPlain 30 "" "" wReq ProxyRequestTypeRaw
        [oTransfer]).writer) "Set-Cookie" = ["c1", "c2"]
    ∧ hVals (finalHeader (ProxyAPI wEnvPlain 30 "" "" wReq ProxyRequestTypeRaw
        [oTransfer]).writer) "X-Foo" = ["a"]
    ∧ hVals (finalHeader (ProxyAPI wEnvPlain 30 "" "" wReq ProxyRequestTypeRaw
        [oTransfer]).writer) "X-Absent" = [] := by
  have h1 := C2_allowlist_header_transfer wEnvPlain 30 "" "" wReq
    ProxyRequestTypeRaw [oTransfer] wResPlain rfl (by decide) "Set-Cookie" (by simp [specialKey])
  have h2 := C2_allowlist_header_transfer wEnvPlain 30 "" "" wReq
    ProxyRequestTypeRaw [oTransfer] wResPlain rfl (by decide) "X-Foo" (by simp [specialKey])
  have h3 := C2_allowlist_header_transfer wEnvPlain 30 "" "" wReq
    ProxyRequestTypeRaw [oTransfer] wResPlain rfl (by decide) "X-Absent" (by simp [specialKey])
  exact ⟨h1.trans (by decide), h2.trans (by decide), h3.trans (by decide)⟩

/-- The transfer loop performs no body write. -/
theorem filter_isBodyWrite_transfer (entries : Header) (allow : List String) :
    (transferEvents entries allow).filter isBodyWrite = [] := by
  rw [List.filter_eq_nil_iff]
  intro e he
  rcases mem_transferEvents he with ⟨k, vv, v, _, _, _, rfl⟩
  simp [isBodyWrite]

/-- The transfer loop performs no `Set`. -/
theorem transfer_no_set (entries : Header) (allow : List String)
    (k v : String) : WEvent.setHeader k v ∉ transferEvents entries allow := by
  intro hm
  rcases mem_transferEvents hm with ⟨k', vv, v', _, _, _, he⟩
  cases he

/-- The transfer loop performs no status write. -/
theorem filter_isStatusWrite_transfer (entries : Header) (allow : List String) :
    (transferEvents entries allow).filter isStatusWrite = [] := by
  rw [List.filter_eq_nil_iff]
  intro e he
  rcases mem_transferEvents he with ⟨k, vv, v, _, _, _, rfl⟩
  simp [isStatusWrite]

/-- Final header values after the JSON-intercept tail. -/
theorem vals_json_tail (X : Header) (buf : Bytes) (k : String) :
    hVals (applyEvents X
      [WEvent.setHeader "Content-Type" "application/json; charset=utf-8",
       WEvent.setHeader "Content-Length" (toString buf.length),
       WEvent.writeJSON buf]) k
      = if k = "Content-Type" then ["application/json; charset=utf-8"]
        else if k = "Content-Length" then [toString buf.length]
        else hVals X k := by
  show hVals (hSet (hSet X "Content-Type" "application/json; charset=utf-8")
      "Content-Length" (toString buf.length)) k = _
  by_cases h1 : k = "Content-Type"
  · subst h1
    rw [hVals_hSet_ne _ _ _ _ (by decide), hVals_hSet_self]
    simp
  · by_cases h2 : k = "Content-Length"
    · subst h2
      rw [hVals_hSet_self]
      simp [h1]
    · rw [hVals_hSet_ne _ _ _ _ h2, hVals_hSet_ne _ _ _ _ h1]
      simp [h1, h2]

/-- C1 counterexample: with a response JSON interceptor set, upstream
`Content-Encoding: gzip`, and `Content-Encoding` in the transfer allow list,
the call succeeds yet the outbound response does carry a `Content-Encoding`
header (value `gzip`) — the claim's "carries no Content-Encoding header"
fails on this input. -/
theorem C1_counterexample :
    (foldOptions 30 [oCEAllowed]).responseJSONInterceptor.isSome = true
    ∧ (ProxyAPI wEnv 30 "" "" wReq ProxyRequestTypeRaw [oCEAllowed]).upstream
        = some wRes
    ∧ hGet wRes.header "Content-Encoding" = "gzip"
    ∧ (ProxyAPI wEnv 30 "" "" wReq ProxyRequestTypeRaw [oCEAllowed]).result
        = .ok ()
    ∧ hVals (finalHeader (ProxyAPI wEnv 30 "" ""
        wReq ProxyRequestTypeRaw [oCEAllowed]).writer) "Content-Encoding"
        = ["gzip"] :=
  ⟨rfl, rfl, rfl, rfl, by decide⟩

/-- C1 (amended): when the response JSON interceptor is set, the upstream
`Content-Encoding` is `gzip`, and — as the counterexample forces —
`Content-Encoding` is not in the transfer allow list, the renderer
decompresses before JSON-decoding, applies the interceptor, re-encodes, and
the outbound response carries no `Content-Encoding` header, a `Content-Type`
of `application/json; charset=utf-8`, a `Content-Length` equal to the byte
length of the re-encoded buffer, and that buffer as its single body write. -/
theorem C1_amended_gzip_json_response {J : Type} (env : Env J) (t : Nat)
    (m p : String) (req : HttpRequest) (rt : String)
    (opts : List (Options J → Options J)) (res : Response) (f : J → J)
    (raw : Bytes) (mj : J)
    (hup : (ProxyAPI env t m p req rt opts).upstream = some res)
    (hf : (foldOptions t opts).responseJSONInterceptor = some f)
    (hce : hGet res.header "Content-Encoding" = "gzip")
    (hallow : (foldOptions t opts).transferResponseHeaders.contains
        "Content-Encoding" = false)
    (hgz : env.gunzip res.body = .ok raw)
    (hdec : env.jsonDecode raw = .ok mj) :
    hVals (finalHeader (ProxyAPI env t m p req rt opts).writer)
        "Content-Encoding" = []
    ∧ hVals (finalHeader (ProxyAPI env t m p req rt opts).writer)
        "Content-Type" = ["application/json; charset=utf-8"]
    ∧ hVals (finalHeader (ProxyAPI env t m p req rt opts).writer)
        "Content-Length" = [toString (env.jsonEncode (f mj)).length]
    ∧ bodyWrites (ProxyAPI env t m p req rt opts).writer
        = [WEvent.writeJSON (env.jsonEncode (f mj))]
    ∧ (ProxyAPI env t m p req rt opts).result = .ok () := by
  obtain ⟨hw, hr⟩ := proxyAPI_render_of_upstream env t m p req rt opts res hup
  have hwr : (renderResponse env (foldOptions t opts) res).1
      = (transferEvents res.header (foldOptions t opts).transferResponseHeaders
          ++ [WEvent.writeStatus res.statusCode])
        ++ [WEvent.setHeader "Content-Type" "application/json; charset=utf-8",
            WEvent.setHeader "Content-Length"
              (toString (env.jsonEncode (f mj)).length),
            WEvent.writeJSON (env.jsonEncode (f mj))] := by
    simp [renderResponse, hf, hce, hgz, hdec]
  have hrr : (renderResponse env (foldOptions t opts) res).2 = .ok () := by
    simp [renderResponse, hf, hce, hgz, hdec]
  have hX : ∀ k, hVals (applyEvents []
      (transferEvents res.header (foldOptions t opts).transferResponseHeaders
        ++ [WEvent.writeStatus res.statusCode])) k
      = hVals (applyEvents []
          (transferEvents res.header (foldOptions t opts).transferResponseHeaders)) k := by
    intro k
    rw [applyEvents_append]
    rfl
  refine ⟨?_, ?_, ?_, ?_, ?_⟩
  · rw [hw, hwr, finalHeader_eq_applyEvents, applyEvents_append, vals_json_tail]
    rw [if_neg (by decide), if_neg (by decide), hX,
        vals_transfer_not_allowed res.header _ _ _ hallow]
    rfl
  · rw [hw, hwr, finalHeader_eq_applyEvents, applyEvents_append, vals_json_tail]
    rw [if_pos rfl]
  · rw [hw, hwr, finalHeader_eq_applyEvents, applyEvents_append, vals_json_tail]
    rw [if_neg (by decide), if_pos rfl]
  · rw [hw, hwr]
    simp [bodyWrites, List.filter_append, filter_isBodyWrite_transfer,
      isBodyWrite]
  · rw [hr, hrr]

theorem C1_amended_gzip_json_response_witness :
    hVals (finalHeader (ProxyAPI wEnv 30 "" "" wReq ProxyRequestTypeRaw
        [oJSON]).writer) "Content-Encoding" = []
    ∧ hVals (finalHeader (ProxyAPI wEnv 30 "" "" wReq ProxyRequestTypeRaw
        [oJSON]).writer) "Content-Type" = ["application/json; charset=utf-8"]
    ∧ hVals (finalHeader (ProxyAPI wEnv 30 "" "" wReq ProxyRequestTypeRaw
        [oJSON]).writer) "Content-Length" = ["2"]
    ∧ bodyWrites (ProxyAPI wEnv 30 "" "" wReq ProxyRequestTypeRaw
        [oJSON]).writer = [WEvent.writeJSON "5X"]
    ∧ (ProxyAPI wEnv 30 "" "" wReq ProxyRequestTypeRaw [oJSON]).result
        = .ok () := by
  have h := C1_amended_gzip_json_response wEnv 30 "" "" wReq ProxyRequestTypeRaw
    [oJSON] wRes (fun j => j + 1) "UNzz" 4 rfl rfl rfl rfl rfl rfl
  exact ⟨h.1, h.2.1, h.2.2.1.trans (by decide), h.2.2.2.1.trans (by decide),
    h.2.2.2.2⟩

/-- Every transfer event is an `Add`. -/
theorem transfer_all_add (entries : Header) (allow : List String) :
    ∀ e ∈ transferEvents entries allow, isAddEvent e = true := by
  intro e he
  rcases mem_transferEvents he with ⟨k, vv, v, _, _, _, rfl⟩
  rfl

/-- C3 counterexample: a call that reached the response phase (it received an
upstream response and wrote the status code) but performed zero body writes,
because the gzip decode failed after the status was committed — refuting
"afterwards exactly one of the two body writes occurs". -/
theorem C3_counterexample :
    (ProxyAPI wEnvGzipFail 30 "" "" wReq ProxyRequestTypeRaw [oJSON]).upstream
        = some wRes
    ∧ statusWrites (ProxyAPI wEnvGzipFail 30 "" "" wReq ProxyRequestTypeRaw
        [oJSON]).writer = [WEvent.writeStatus 200]
    ∧ bodyWrites (ProxyAPI wEnvGzipFail 30 "" "" wReq ProxyRequestTypeRaw
        [oJSON]).writer = []
    ∧ (ProxyAPI wEnvGzipFail 30 "" "" wReq ProxyRequestTypeRaw [oJSON]).result
        = .error (.gzipError "invalid gzip") :=
  ⟨rfl, by decide, by decide, rfl⟩

/-- C3 (amended): in every forwarding call that reached the response phase,
the allow-listed header transfer (all of it `Add` events) happens strictly
before the status write, the status code is written exactly once, at most one
body write occurs — exactly one when the call returns without error, and
possibly zero when rendering fails after the status commit, as the
counterexample forces — and the JSON buffer write and the streamed copy never
both occur. -/
theorem C3_amended_write_discipline {J : Type} (env : Env J) (t : Nat)
    (m p : String) (req : HttpRequest) (rt : String)
    (opts : List (Options J → Options J)) (res : Response)
    (hup : (ProxyAPI env t m p req rt opts).upstream = some res) :
    ∃ pre tail,
      (ProxyAPI env t m p req rt opts).writer
          = pre ++ WEvent.writeStatus res.statusCode :: tail
      ∧ (∀ e ∈ pre, isAddEvent e = true)
      ∧ (∀ e ∈ tail, isStatusWrite e = false)
      ∧ (∀ e ∈ tail, isAddEvent e = false)
      ∧ (statusWrites (ProxyAPI env t m p req rt opts).writer).length = 1
      ∧ (bodyWrites (ProxyAPI env t m p req rt opts).writer).length ≤ 1
      ∧ ((ProxyAPI env t m p req rt opts).result = .ok () →
          (bodyWrites (ProxyAPI env t m p req rt opts).writer).length = 1)
      ∧ (∀ b b', WEvent.writeJSON b ∈ (ProxyAPI env t m p req rt opts).writer →
          WEvent.copyBody b' ∈ (ProxyAPI env t m p req rt opts).writer → False) := by
  obtain ⟨hw, hr⟩ := proxyAPI_render_of_upstream env t m p req rt opts res hup
  obtain ⟨tail, hsh, hadd, hstat, htouch, hble, hbok⟩ :=
    render_writer_split env (foldOptions t opts) res
  refine ⟨transferEvents res.header (foldOptions t opts).transferResponseHeaders,
    tail, by rw [hw, hsh], transfer_all_add _ _, hstat, hadd, ?_, ?_, ?_, ?_⟩
  · rw [hw, hsh]
    simp only [statusWrites, List.filter_append, List.filter_cons]
    rw [filter_isStatusWrite_transfer]
    have : (tail.filter isStatusWrite) = [] :=
      List.filter_eq_nil_iff.2 (by intro e he; rw [hstat e he]; simp)
    simp [this, isStatusWrite]
  · rw [hw, hsh]
    simp only [bodyWrites, List.filter_append, List.filter_cons]
    rw [filter_isBodyWrite_transfer]
    simpa [isBodyWrite] using hble
  · intro hok
    rw [hw, hsh]
    simp only [bodyWrites, List.filter_append, List.filter_cons]
    rw [filter_isBodyWrite_transfer]
    have := hbok (hr ▸ hok)
    simpa [isBodyWrite] using this
  · intro b b' hbj hbc
    have h1 : WEvent.writeJSON b
        ∈ bodyWrites (ProxyAPI env t m p req rt opts).writer :=
      List.mem_filter.2 ⟨hbj, rfl⟩
    have h2 : WEvent.copyBody b'
        ∈ bodyWrites (ProxyAPI env t m p req rt opts).writer :=
      List.mem_filter.2 ⟨hbc, rfl⟩
    have hlen : (bodyWrites (ProxyAPI env t m p req rt opts).writer).length ≤ 1 := by
      rw [hw, hsh]
      simp only [bodyWrites, List.filter_append, List.filter_cons]
      rw [filter_isBodyWrite_transfer]
      simpa [isBodyWrite] using hble
    cases hbw : bodyWrites (ProxyAPI env t m p req rt opts).writer with
    | nil => rw [hbw] at h1; cases h1
    | cons x xs =>
      cases xs with
      | nil =>
        rw [hbw] at h1 h2
        rcases List.mem_singleton.1 h1 with rfl
        rcases List.mem_singleton.1 h2 with h
        cases h
      | cons y ys =>
        rw [hbw] at hlen
        simp at hlen

theorem C3_amended_write_discipline_witness :
    (statusWrites (ProxyAPI wEnv 30 "" "" wReq ProxyRequestTypeRaw
        [oJSON]).writer).length = 1
    ∧ (bodyWrites (ProxyAPI wEnv 30 "" "" wReq ProxyRequestTypeRaw
        [oJSON]).writer).length = 1 := by
  obtain ⟨pre, tail, _, _, _, _, hstat, _, hok, _⟩ :=
    C3_amended_write_discipline wEnv 30 "" "" wReq ProxyRequestTypeRaw [oJSON]
      wRes rfl
  exact ⟨hstat, hok rfl⟩

theorem applyEvents_cons (h : Header) (e : WEvent) (tr : List WEvent) :
    applyEvents h (e :: tr) = applyEvents (applyEvent h e) tr := rfl

theorem applyEvents_nil (h : Header) : applyEvents h [] = h := rfl

/-- The passthrough branch's trace, in the renderer's own grouping. -/
theorem render_none_trace {J : Type} (env : Env J) (opt : Options J)
    (res : Response) (hJ : opt.responseJSONInterceptor = none) :
    (renderResponse env opt res).1
      = (transferEvents res.header opt.transferResponseHeaders
          ++ [WEvent.writeStatus res.statusCode])
        ++ (WEvent.setHeader "Content-Type" (hGet res.header "Content-Type")
          :: ((if hGet res.header "Content-Length" = "" then []
               else [WEvent.setHeader "Content-Length"
                      (hGet res.header "Content-Length")])
            ++ ((if hGet res.header "Content-Encoding" = "" then []
               else [WEvent.setHeader "Content-Encoding"
                      (hGet res.header "Content-Encoding")])
              ++ [WEvent.copyBody res.body])))
    ∧ (renderResponse env opt res).2 = .ok () := by
  constructor
  · simp [renderResponse, hJ, List.append_assoc]
  · simp [renderResponse, hJ]

theorem applyEvents_ifset (X : Header) (c : Prop) [Decidable c]
    (kk v : String) (rest : List WEvent) :
    applyEvents X ((if c then [] else [WEvent.setHeader kk v]) ++ rest)
      = applyEvents (if c then X else hSet X kk v) rest := by
  by_cases h : c <;> simp [h, applyEvents_cons, applyEvents_nil, applyEvent]

/-- Final header values after the passthrough tail. -/
theorem vals_pass_tail (X : Header) (ct cl ce : String) (body : Bytes)
    (k : String) :
    hVals (applyEvents X (WEvent.setHeader "Content-Type" ct
      :: ((if cl = "" then [] else [WEvent.setHeader "Content-Length" cl])
        ++ ((if ce = "" then [] else [WEvent.setHeader "Content-Encoding" ce])
          ++ [WEvent.copyBody body])))) k
      = if k = "Content-Type" then [ct]
        else if k = "Content-Length" ∧ cl ≠ "" then [cl]
        else if k = "Content-Encoding" ∧ ce ≠ "" then [ce]
        else hVals X k := by
  rw [applyEvents_cons]
  show hVals (applyEvents (hSet X "Content-Type" ct) _) k = _
  rw [applyEvents_ifset, applyEvents_ifset]
  have hcopy : ∀ Y : Header, applyEvents Y [WEvent.copyBody body] = Y :=
    fun Y => rfl
  rw [hcopy]
  by_cases hcl : cl = "" <;> by_cases hce : ce = "" <;>
    by_cases k1 : k = "Content-Type" <;> by_cases k2 : k = "Content-Length" <;>
    by_cases k3 : k = "Content-Encoding" <;>
    simp_all [hVals_hSet_self, hVals_hSet_ne]

/-- C4: without a response JSON interceptor, the outbound `Content-Type` is
the upstream value verbatim (set even when empty), `Content-Length` and
`Content-Encoding` are copied byte-for-byte exactly when non-empty and are
otherwise never `Set` by the renderer, and the body is the upstream body
streamed byte-for-byte as the single body write. -/
theorem C4_passthrough_response {J : Type} (env : Env J) (t : Nat)
    (m p : String) (req : HttpRequest) (rt : String)
    (opts : List (Options J → Options J)) (res : Response)
    (hup : (ProxyAPI env t m p req rt opts).upstream = some res)
    (hJ : (foldOptions t opts).responseJSONInterceptor = none) :
    hVals (finalHeader (ProxyAPI env t m p req rt opts).writer) "Content-Type"
        = [hGet res.header "Content-Type"]
    ∧ (hGet res.header "Content-Length" ≠ "" →
        hVals (finalHeader (ProxyAPI env t m p req rt opts).writer)
            "Content-Length" = [hGet res.header "Content-Length"])
    ∧ (hGet res.header "Content-Encoding" ≠ "" →
        hVals (finalHeader (ProxyAPI env t m p req rt opts).writer)
            "Content-Encoding" = [hGet res.header "Content-Encoding"])
    ∧ (hGet res.header "Content-Length" = "" →
        ∀ v, WEvent.setHeader "Content-Length" v
          ∉ (ProxyAPI env t m p req rt opts).writer)
    ∧ (hGet res.header "Content-Encoding" = "" →
        ∀ v, WEvent.setHeader "Content-Encoding" v
          ∉ (ProxyAPI env t m p req rt opts).writer)
    ∧ bodyWrites (ProxyAPI env t m p req rt opts).writer
        = [WEvent.copyBody res.body]
    ∧ (ProxyAPI env t m p req rt opts).result = .ok () := by
  obtain ⟨hw, hr⟩ := proxyAPI_render_of_upstream env t m p req rt opts res hup
  obtain ⟨htr, hok⟩ := render_none_trace env (foldOptions t opts) res hJ
  have hX : applyEvents [] (transferEvents res.header
        (foldOptions t opts).transferResponseHeaders
      ++ [WEvent.writeStatus res.statusCode])
      = applyEvents [] (transferEvents res.header
          (foldOptions t opts).transferResponseHeaders) := by
    rw [applyEvents_append]; rfl
  have hfin : ∀ k, hVals (finalHeader (ProxyAPI env t m p req rt opts).writer) k
      = if k = "Content-Type" then [hGet res.header "Content-Type"]
        else if k = "Content-Length" ∧ hGet res.header "Content-Length" ≠ ""
          then [hGet res.header "Content-Length"]
        else if k = "Content-Encoding" ∧ hGet res.header "Content-Encoding" ≠ ""
          then [hGet res.header "Content-Encoding"]
        else hVals (applyEvents [] (transferEvents res.header
            (foldOptions t opts).transferResponseHeaders)) k := by
    intro k
    rw [hw, htr, finalHeader_eq_applyEvents, applyEvents_append, vals_pass_tail,
        hX]
  refine ⟨?_, ?_, ?_, ?_, ?_, ?_, ?_⟩
  · rw [hfin]; simp
  · intro hne
    rw [hfin]
    rw [if_neg (by decide), if_pos ⟨rfl, hne⟩]
  · intro hne
    rw [hfin]
    rw [if_neg (by decide), if_neg (by simp), if_pos ⟨rfl, hne⟩]
  · intro hcl v hmem
    rw [hw, htr] at hmem
    by_cases hce : hGet res.header "Content-Encoding" = "" <;>
      simp [hcl, hce, transfer_no_set] at hmem
  · intro hce v hmem
    rw [hw, htr] at hmem
    by_cases hcl : hGet res.header "Content-Length" = "" <;>
      simp [hcl, hce, transfer_no_set] at hmem
  · rw [hw, htr]
    by_cases hcl : hGet res.header "Content-Length" = "" <;>
      by_cases hce : hGet res.header "Content-Encoding" = "" <;>
      simp [hcl, hce, bodyWrites, List.filter_append,
        filter_isBodyWrite_transfer, isBodyWrite]
  · rw [hr, hok]

theorem C4_passthrough_response_witness :
    hVals (finalHeader (ProxyAPI wEnv 30 "" "" wReq ProxyRequestTypeRaw
        [oTransfer]).writer) "Content-Type" = ["application/json"]
    ∧ hVals (finalHeader (ProxyAPI wEnv 30 "" "" wReq ProxyRequestTypeRaw
        [oTransfer]).writer) "Content-Length" = ["2"]
    ∧ hVals (finalHeader (ProxyAPI wEnv 30 "" "" wReq ProxyRequestTypeRaw
        [oTransfer]).writer) "Content-Encoding" = ["gzip"]
    ∧ bodyWrites (ProxyAPI wEnv 30 "" "" wReq ProxyRequestTypeRaw
        [oTransfer]).writer = [WEvent.copyBody "zz"]
    ∧ (ProxyAPI wEnv 30 "" "" wReq ProxyRequestTypeRaw [oTransfer]).result
        = .ok ()
    ∧ hVals (finalHeader (ProxyAPI wEnvPlain 30 "" "" wReq ProxyRequestTypeRaw
        [oTransfer]).writer) "Content-Type" = [""]
    ∧ WEvent.setHeader "Content-Length" "9"
        ∉ (ProxyAPI wEnvPlain 30 "" "" wReq ProxyRequestTypeRaw
            [oTransfer]).writer := by
  have h1 := C4_passthrough_response wEnv 30 "" "" wReq ProxyRequestTypeRaw
    [oTransfer] wRes rfl rfl
  have h2 := C4_passthrough_response wEnvPlain 30 "" "" wReq ProxyRequestTypeRaw
    [oTransfer] wResPlain rfl rfl
  refine ⟨h1.1.trans (by decide), ?_, ?_, h1.2.2.2.2.2.1.trans (by decide),
    h1.2.2.2.2.2.2, h2.1.trans (by decide), h2.2.2.2.1 rfl "9"⟩
  · exact (h1.2.1 (by decide)).trans (by decide)
  · exact (h1.2.2.1 (by decide)).trans (by decide)

/-- C7: a multipart-form forwarding call whose inbound body exceeds
`MaxUploadSize` fails with the size-limit error before any field or file is
processed (no file handle touched, no part produced), and the whole call
fails with nothing sent upstream and nothing written to the sink. -/
theorem C7_multipart_size_limit {J : Type} (env : Env J) (t : Nat)
    (m p : String) (req : HttpRequest)
    (opts : List (Options J → Options J))
    (hsize : (foldOptions t opts).maxUploadSize < req.contentLength) :
    (parseMultipartFormRequest env req (foldOptions t opts)).result
        = .error .sizeLimitError
    ∧ (parseMultipartFormRequest env req (foldOptions t opts)).fileEvents = []
    ∧ (ProxyAPI env t m p req ProxyRequestTypeMultipartForm opts).result
        = .error .sizeLimitError
    ∧ (ProxyAPI env t m p req ProxyRequestTypeMultipartForm opts).sends = []
    ∧ (ProxyAPI env t m p req ProxyRequestTypeMultipartForm opts).writer = [] := by
  have henc : parseMultipartFormRequest env req (foldOptions t opts)
      = { inboundBodyClosed := false, fileEvents := [],
          result := .error .sizeLimitError } := by
    simp [parseMultipartFormRequest, requestParseMultipartForm, hsize]
  have hrun : (runEncoder env ProxyRequestTypeMultipartForm req
      (foldOptions t opts)).result = .error .sizeLimitError := by
    simp [runEncoder, ProxyRequestTypeMultipartForm, ProxyRequestTypeRaw,
      ProxyRequestTypeForm, henc]
  refine ⟨by rw [henc], by rw [henc], ?_, ?_, ?_⟩ <;>
    · unfold ProxyAPI
      simp [hrun]

theorem C7_multipart_size_limit_witness :
    (parseMultipartFormRequest wEnv wReqBig (foldOptions 30 [oMax10])).result
        = .error .sizeLimitError
    ∧ (parseMultipartFormRequest wEnv wReqBig (foldOptions 30 [oMax10])).fileEvents
        = []
    ∧ (ProxyAPI wEnv 30 "" "" wReqBig ProxyRequestTypeMultipartForm
        [oMax10]).result = .error .sizeLimitError
    ∧ (ProxyAPI wEnv 30 "" "" wReqBig ProxyRequestTypeMultipartForm
        [oMax10]).sends = []
    ∧ (ProxyAPI wEnv 30 "" "" wReqBig ProxyRequestTypeMultipartForm
        [oMax10]).writer = [] :=
  C7_multipart_size_limit wEnv 30 "" "" wReqBig [oMax10] (by decide)

/-- C8: the source file handle of an uploaded part is NOT closed on every
exit path.  When `CreateFormFile` fails for the just-opened file, or when
`io.Copy` fails for a later file, the current file's handle is left open
(`opened` without a matching `closed`) — `proxy.go` only calls `f.Close()`
after a successful copy, with no `defer`.  Earlier, fully copied files are
closed. -/
theorem C8_handle_leak_on_failure :
    ((parseMultipartFormRequest wEnv wReqMpCreate
        (foldOptions 30 [oMax10])).fileEvents = [FEvent.opened 0]
      ∧ FEvent.closed 0 ∉ (parseMultipartFormRequest wEnv wReqMpCreate
          (foldOptions 30 [oMax10])).fileEvents
      ∧ (parseMultipartFormRequest wEnv wReqMpCreate
          (foldOptions 30 [oMax10])).result = .error (.createError "a.txt"))
    ∧ ((parseMultipartFormRequest wEnv wReqMpCopy
          (foldOptions 30 [oMax10])).fileEvents
        = [FEvent.opened 0, FEvent.closed 0, FEvent.opened 1]
      ∧ FEvent.closed 1 ∉ (parseMultipartFormRequest wEnv wReqMpCopy
          (foldOptions 30 [oMax10])).fileEvents
      ∧ (parseMultipartFormRequest wEnv wReqMpCopy
          (foldOptions 30 [oMax10])).result = .error (.copyError "bad.txt")) := by
  refine ⟨⟨by decide, by decide, rfl⟩, ⟨by decide, by decide, rfl⟩⟩

theorem formKeys_hAdd_mem (m : FormValues) (k v k' : String) :
    k' ∈ formKeys (hAdd m k v) ↔ k' ∈ formKeys m ∨ k' = k := by
  induction m with
  | nil => simp [hAdd, formKeys]
  | cons kv rest ih =>
    obtain ⟨k0, vv⟩ := kv
    by_cases hk : k0 = k
    · subst hk
      simp [hAdd, formKeys]
      tauto
    · simp [hAdd, formKeys, hk] at ih ⊢
      tauto

theorem formKeys_addFormValues_mem (vs : List String) (m : FormValues)
    (k k' : String) (h : k' ∈ formKeys (addFormValues m k vs)) :
    k' ∈ formKeys m ∨ k' = k := by
  induction vs generalizing m with
  | nil => exact Or.inl h
  | cons v vs ih =>
    rcases ih (hAdd m k v) h with h' | h'
    · exact (formKeys_hAdd_mem m k v k').1 h'
    · exact Or.inr h'

theorem hVals_addFormValues_self (vs : List String) (m : FormValues)
    (k : String) :
    hVals (addFormValues m k vs) k = hVals m k ++ vs := by
  induction vs generalizing m with
  | nil => simp [addFormValues]
  | cons v vs ih =>
    show hVals (addFormValues (hAdd m k v) k vs) k = _
    rw [ih, hVals_hAdd_self, List.append_assoc]
    rfl

theorem hVals_addFormValues_ne (vs : List String) (m : FormValues)
    (k k' : String) (hne : k' ≠ k) :
    hVals (addFormValues m k vs) k' = hVals m k' := by
  induction vs generalizing m with
  | nil => rfl
  | cons v vs ih =>
    show hVals (addFormValues (hAdd m k v) k vs) k' = _
    rw [ih, hVals_hAdd_ne _ _ _ _ hne]

theorem hVals_eq_nil_of_not_mem_keys (m : FormValues) (k : String)
    (h : k ∉ formKeys m) : hVals m k = [] := by
  induction m with
  | nil => rfl
  | cons kv rest ih =>
    obtain ⟨k0, vv⟩ := kv
    simp [formKeys] at h
    show (if k0 = k then vv else hVals rest k) = []
    rw [if_neg (fun he => h.1 he.symm)]
    exact ih (by simpa [formKeys] using h.2)

theorem hVals_rebuildFormAux (pf : FormValues) (m : FormValues) (k : String)
    (hnd : (pf.map Prod.fst).Nodup) :
    hVals (rebuildFormAux m pf) k
      = if k ∈ formKeys pf then hVals m k ++ hVals pf k else hVals m k := by
  induction pf generalizing m with
  | nil => simp [rebuildFormAux, formKeys]
  | cons kv rest ih =>
    obtain ⟨k0, vv⟩ := kv
    simp only [List.map, List.nodup_cons] at hnd
    show hVals (rebuildFormAux (addFormValues m k0 vv) rest) k = _
    rw [ih _ hnd.2]
    by_cases hk : k = k0
    · subst hk
      have hnotrest : k ∉ formKeys rest := fun hmem => hnd.1 hmem
      rw [if_neg hnotrest, hVals_addFormValues_self,
          if_pos (show k ∈ formKeys ((k, vv) :: rest) from List.mem_cons_self _ _)]
      simp [hVals]
    · rw [hVals_addFormValues_ne _ _ _ _ hk]
      by_cases hmem : k ∈ formKeys rest
      · rw [if_pos hmem,
            if_pos (show k ∈ formKeys ((k0, vv) :: rest) from
              List.mem_cons.2 (Or.inr hmem))]
        congr 1
        simp [hVals, Ne.symm hk]
      · rw [if_neg hmem,
            if_neg (show k ∉ formKeys ((k0, vv) :: rest) from fun hcon => by
              rcases List.mem_cons.1 hcon with h | h
              · exact hk h
              · exact hmem h)]

theorem hVals_rebuildForm (pf : FormValues) (k : String)
    (hnd : (pf.map Prod.fst).Nodup) :
    hVals (rebuildForm pf) k = hVals pf k := by
  rw [rebuildForm, hVals_rebuildFormAux pf [] k hnd]
  by_cases hmem : k ∈ formKeys pf
  · rw [if_pos hmem]; rfl
  · rw [if_neg hmem, hVals_eq_nil_of_not_mem_keys pf k hmem]; rfl

theorem formKeys_rebuildFormAux_mem (pf : FormValues) :
    ∀ (m : FormValues) (k : String), k ∈ formKeys (rebuildFormAux m pf) →
    k ∈ formKeys m ∨ k ∈ formKeys pf := by
  induction pf with
  | nil => exact fun m k h => Or.inl h
  | cons kv rest ih =>
    intro m k h
    obtain ⟨k0, vv⟩ := kv
    rcases ih (addFormValues m k0 vv) k h with h' | h'
    · rcases formKeys_addFormValues_mem vv m k0 k h' with h'' | h''
      · exact Or.inl h''
      · exact Or.inr (List.mem_cons.2 (Or.inl h''))
    · exact Or.inr (List.mem_cons.2 (Or.inr h'))

theorem formKeys_rebuildForm_mem (pf : FormValues) (k : String)
    (h : k ∈ formKeys (rebuildForm pf)) : k ∈ formKeys pf := by
  rcases formKeys_rebuildFormAux_mem pf [] k h with h' | h'
  · cases h'
  · exact h'

theorem mem_insertByKey (kv kv' : String × List String) (l : FormValues) :
    kv' ∈ insertByKey kv l ↔ kv' = kv ∨ kv' ∈ l := by
  induction l with
  | nil => simp [insertByKey]
  | cons a rest ih =>
    cases h : strLt a.1 kv.1
    · simp only [insertByKey, h, Bool.false_eq_true, if_false, List.mem_cons]
    · simp only [insertByKey, h, if_true, List.mem_cons, ih]
      tauto

theorem mem_sortByKey (kv : String × List String) (l : FormValues) :
    kv ∈ sortByKey l ↔ kv ∈ l := by
  induction l with
  | nil => simp [sortByKey]
  | cons a rest ih =>
    simp [sortByKey, mem_insertByKey, ih]

theorem mem_encodeFormPairs_key (fv : FormValues) (pr : String × String)
    (h : pr ∈ encodeFormPairs fv) : pr.1 ∈ formKeys fv := by
  rw [encodeFormPairs] at h
  rcases List.mem_flatMap.1 h with ⟨kv, hkv, hpr⟩
  rcases List.mem_map.1 hpr with ⟨v, hv, rfl⟩
  have hm : kv ∈ fv := (mem_sortByKey kv fv).1 hkv
  simpa [formKeys] using List.mem_map_of_mem Prod.fst hm

/-- C10: the Form encoder rebuilds from `req.PostForm` a mapping with exactly
the parsed body fields, every value of every multi-valued key preserved; that
mapping (not the URL query) is what is handed to the form interceptor when
one is set, and what is URL-encoded into the outbound body when none is set —
so a parameter appearing only in the URL query never occurs in the encoded
outbound form body. -/
theorem C10_form_fields {J : Type} (req : HttpRequest) (opt : Options J)
    (hnd : (req.postForm.map Prod.fst).Nodup)
    (hpe : req.parseFormFails = false) :
    (∀ k, hVals (rebuildForm req.postForm) k = hVals req.postForm k)
    ∧ (∀ f, opt.requestFormInterceptor = some f →
        (parseFormRequest req opt).result
          = .ok (.buffer (encodeForm (f (rebuildForm req.postForm))),
              if hGet req.header "Content-Type" = ""
              then "application/x-www-form-urlencoded"
              else hGet req.header "Content-Type"))
    ∧ (opt.requestFormInterceptor = none →
        (parseFormRequest req opt).result
          = .ok (.buffer (encodeForm (rebuildForm req.postForm)),
              if hGet req.header "Content-Type" = ""
              then "application/x-www-form-urlencoded"
              else hGet req.header "Content-Type"))
    ∧ (∀ k, k ∈ formKeys req.queryForm → k ∉ formKeys req.postForm →
        ∀ pr ∈ encodeFormPairs (rebuildForm req.postForm), pr.1 ≠ k) := by
  refine ⟨fun k => hVals_rebuildForm req.postForm k hnd, ?_, ?_, ?_⟩
  · intro f hf
    simp only [parseFormRequest, hpe, hf]
    split <;> simp_all
  · intro hf
    simp only [parseFormRequest, hpe, hf]
    split <;> simp_all
  · intro k _ hknot pr hpr he
    exact hknot (he ▸ formKeys_rebuildForm_mem req.postForm pr.1
      (mem_encodeFormPairs_key _ pr hpr))

theorem C10_form_fields_witness :
    hVals (rebuildForm wReq.postForm) "a" = ["1", "2"]
    ∧ hVals (rebuildForm wReq.postForm) "b" = ["x"]
    ∧ (parseFormRequest wReq (foldOptions 30 ([] : List (Options Nat → Options Nat)))).result
        = .ok (.buffer "a=1&a=2&b=x", "text/plain")
    ∧ (parseFormRequest wReq (foldOptions 30 [oForm])).result
        = .ok (.buffer "a=1&a=2&b=x&c=9", "text/plain")
    ∧ (("a", "1") ∈ encodeFormPairs (rebuildForm wReq.postForm)
        ∧ ("a", "1").1 ≠ "q") := by
  have h0 := C10_form_fields wReq
    (foldOptions 30 ([] : List (Options Nat → Options Nat))) (by decide) rfl
  have h1 := C10_form_fields wReq (foldOptions 30 [oForm]) (by decide) rfl
  have hpairs : encodeFormPairs (rebuildForm wReq.postForm)
      = [("a", "1"), ("a", "2"), ("b", "x")] := rfl
  have hmem : ("a", "1") ∈ encodeFormPairs (rebuildForm wReq.postForm) := by
    rw [hpairs]
    exact List.mem_cons_self _ _
  refine ⟨(h0.1 "a").trans (by decide), (h0.1 "b").trans (by decide), ?_, ?_, hmem, ?_⟩
  · exact (h0.2.2.1 rfl).trans rfl
  · exact (h1.2.1 (fun m => hAdd m "c" "9") rfl).trans rfl
  · exact h0.2.2.2 "q" (by decide) (by decide) ("a", "1") hmem
